import Mathlib

/-!
# Verification of the terracotta local data collector and MHOD constraint builder

Shallow embedding of the Python 2 sources:

* `neat/locals/collector.py` — the per-host data collector: the counter
  converter `calculate_cpu_mhz`, the VM-set reconciliation helpers
  (`substract_lists`, `get_added_vms`, `get_removed_vms`), the local history
  maintenance (`cleanup_local_data`, the per-VM body of
  `append_data_locally`), and the sampling pass `get_cpu_mhz`.
* `neat/local/overload/mhod/nlp.py` — `build_constraint` of the MHOD model.

Embedding conventions:

* The sources are Python 2: `/` on two integers is floor division, which is
  `Int.fdiv` here.  Python floats are modelled as exact rationals `ℚ`.
* Python dictionaries (with string keys) are modelled as association lists
  `List (String × β)`; insertion order and single occurrence of each key
  mirror the dict.  `dset`/`dlookup`/`removeKey` model item assignment,
  subscription and `del` / `os.remove`.
* Fallible Python code (raising exceptions) is modelled in `Except PyErr`.
  The `PyErr.invalidModelInput` constructor does not correspond to any
  exception the source can raise: it stands for the spec's `InvalidModelInput`
  error-taxonomy condition, so that statements contrasting it with the
  exceptions the code actually raises can be expressed.
* Libvirt is abstracted as a query function `String → Except PyErr Int`
  giving the cumulative CPU time of a VM (or a libvirt error).
-/

deriving instance DecidableEq for Except

namespace Terracotta

/-- Exception conditions of the modelled code.  The first five are Python
runtime exceptions the source can raise; `invalidModelInput` is the spec's
taxonomy name for a degenerate optimization denominator (never raised by the
source, present only to state claims that mention it). -/
inductive PyErr where
  | zeroDivisionError
  | indexError
  | keyError
  | osError
  | libvirtError
  | invalidModelInput
  deriving DecidableEq, Repr

/-! ## Counter converter: `calculate_cpu_mhz` (collector.py, lines 442-466)

```python
return int((current_cpu_time - previous_cpu_time) /
           ((current_time - previous_time) * 1000000000 * cpus))
```

Under the declared contracts all five arguments are `int`, so the Python 2
`/` is floor division (`Int.fdiv`) and the outer `int()` is the identity.
A zero denominator raises `ZeroDivisionError`. -/
def calculate_cpu_mhz (cpus previous_time current_time
    previous_cpu_time current_cpu_time : Int) : Except PyErr Int :=
  let denom := (current_time - previous_time) * 1000000000 * cpus
  if denom = 0 then .error .zeroDivisionError
  else .ok ((current_cpu_time - previous_cpu_time).fdiv denom)

/-! ## MHOD constraint builder: `build_constraint` (nlp.py, lines 45-76)

```python
def constraint(*m):
    return float(migration_time + time_in_state_n + ls[-1](state_vector, p, m)) / \
           (migration_time + time_in_states + sum(l(state_vector, p, m) for l in ls))
return (constraint, operator.le, otf)
```

The L functions are opaque callables evaluated on
`(state_vector, p, window_sizes)`.  `ls[-1]` raises `IndexError` on an empty
list (evaluated while building the numerator, before the division); a zero
denominator raises `ZeroDivisionError`.  The float division is modelled as
exact division in `ℚ`; `operator.le` is the boolean comparison on `ℚ`. -/
abbrev LFun := List Int → List (List ℚ) → List ℚ → ℚ

def build_constraint (otf : ℚ) (migration_time : ℚ) (ls : List LFun)
    (state_vector : List Int) (p : List (List ℚ))
    (time_in_states time_in_state_n : ℚ) :
    (List ℚ → Except PyErr ℚ) × (ℚ → ℚ → Bool) × ℚ :=
  ((fun m =>
      match ls.getLast? with
      | none => .error .indexError
      | some lastL =>
        let denom :=
          migration_time + time_in_states + (ls.map (fun l => l state_vector p m)).sum
        if denom = 0 then .error .zeroDivisionError
        else .ok ((migration_time + time_in_state_n + lastL state_vector p m) / denom)),
   (fun a b => decide (a ≤ b)), otf)

/-- An L function that returns 0 on every input (used by the spec's concrete
MHOD-constraint scenario). -/
def zeroL : LFun := fun _ _ _ => 0

/-! ## Python dicts as association lists -/

/-- Dict subscription (read): value of the first entry with the given key. -/
def dlookup (k : String) : List (String × β) → Option β
  | [] => none
  | e :: rest => if k = e.1 then some e.2 else dlookup k rest

/-- Dict item assignment `d[k] = v`: replace the first entry with key `k`,
or append a fresh entry. -/
def dset : List (String × β) → String → β → List (String × β)
  | [], k, v => [(k, v)]
  | e :: rest, k, v => if k = e.1 then (k, v) :: rest else e :: dset rest k v

/-- The keys of a dict, in insertion order. -/
def dkeys (l : List (String × β)) : List String := l.map Prod.fst

/-- Removal of the entry with key `k`, failing with the given error when no
entry has that key.  With `err = .keyError` this is Python's `del d[k]`; with
`err = .osError` it is `os.remove` on a directory modelled as an association
list from file name to file content. -/
def removeKey (err : PyErr) : List (String × β) → String → Except PyErr (List (String × β))
  | [], _ => .error err
  | e :: rest, k =>
    if k = e.1 then .ok rest
    else (removeKey err rest k).map (fun r => e :: r)

/-! ## VM set reconciliation (collector.py, lines 234-279)

`substract_lists` is `list(set(list1).difference(list2))`: the elements of
`list1` not in `list2`, deduplicated.  Python's set iteration order is
unspecified; the model keeps first occurrences in `list1` order, and every
claim about these functions is order-insensitive. -/
def substract_lists (list1 list2 : List String) : List String :=
  (list1.filter (fun x => !list2.contains x)).dedup

def get_added_vms (previous_vms current_vms : List String) : List String :=
  substract_lists current_vms previous_vms

def get_removed_vms (previous_vms current_vms : List String) : List String :=
  substract_lists previous_vms current_vms

/-! ## `cleanup_local_data` (collector.py, lines 282-293)

```python
for vm in vms:
    os.remove(os.path.join(path, vm))
```

The `<local_data_directory>/vm` directory is modelled as an association list
from VM UUID (file name) to file content; `os.remove` of a missing file
raises `OSError`. -/
def cleanup_local_data (store : List (String × List Int)) (vms : List String) :
    Except PyErr (List (String × List Int)) :=
  vms.foldlM (removeKey .osError) store

/-! ## Per-VM body of `append_data_locally` (collector.py, lines 337-356)

```python
values = deque(f.read().strip().splitlines(), data_length)
values.append(value)
f.write('\n'.join([str(x) for x in values]) + '\n')
```

`collections.deque(iterable, maxlen)` retains the last `maxlen` elements;
`deque.append` on a full bounded deque discards the leftmost element.  The
file content is modelled as the list of integers it denotes. -/

/-- `deque(iterable, maxlen)`: the last `maxlen` elements of the list. -/
def dequeOfList (l : List Int) (maxlen : Nat) : List Int :=
  l.drop (l.length - maxlen)

/-- `deque.append(v)` on a deque bounded by `maxlen`: appends, discarding
from the left whatever exceeds the bound. -/
def dequeAppendMax (d : List Int) (v : Int) (maxlen : Nat) : List Int :=
  if d.length < maxlen then d ++ [v] else (d ++ [v]).drop (d.length + 1 - maxlen)

/-- The new file content `append_data_locally` writes for one VM whose file
currently holds `history`, when appending `value` under capacity
`data_length`. -/
def append_data_locally_vm (history : List Int) (value : Int) (data_length : Nat) :
    List Int :=
  dequeAppendMax (dequeOfList history data_length) value data_length

/-! ## The sampling pass: `get_cpu_mhz` (collector.py, lines 372-422)

```python
previous_vms = previous_cpu_time.keys()
added_vms = get_added_vms(previous_vms, current_vms)
removed_vms = get_removed_vms(previous_vms, current_vms)
cpu_mhz = {}

for uuid, cpu_time in previous_cpu_time.items():
    current_cpu_time = get_cpu_time(vir_connection, uuid)
    cpu_mhz[uuid] = calculate_cpu_mhz(physical_cpus, previous_time,
                                      current_time, cpu_time,
                                      current_cpu_time)
    previous_cpu_time[uuid] = current_cpu_time

for uuid in added_vms:
    if added_vm_data[uuid]:
        cpu_mhz[uuid] = added_vm_data[uuid][-1]
    previous_cpu_time[uuid] = get_cpu_time(vir_connection, uuid)

for uuid in removed_vms:
    del previous_cpu_time[uuid]
    del cpu_mhz[uuid]

return previous_cpu_time, cpu_mhz
```

The libvirt connection is abstracted as `query : String → Except PyErr Int`
(`get_cpu_time` can raise a libvirt error, e.g. when the VM vanished).  In
Python 2, `previous_cpu_time.keys()` and `.items()` are snapshot lists, so
the membership tests and the first loop use the dict as passed in, while the
in-place mutations are threaded as fold state.  There is no `try` in the
source: the first exception of any step propagates out of `get_cpu_mhz`. -/

/-- `get_cpu_time` (collector.py, lines 425-439): one cumulative-CPU-time
query against the hypervisor. -/
def get_cpu_time (query : String → Except PyErr Int) (uuid : String) :
    Except PyErr Int :=
  query uuid

/-- Body of the first loop of `get_cpu_mhz`: sample one previously tracked
VM. -/
def sampleStep (query : String → Except PyErr Int)
    (physical_cpus previous_time current_time : Int)
    (s : List (String × Int) × List (String × Int)) (kv : String × Int) :
    Except PyErr (List (String × Int) × List (String × Int)) := do
  let current_cpu_time ← get_cpu_time query kv.1
  let v ← calculate_cpu_mhz physical_cpus previous_time current_time kv.2 current_cpu_time
  pure (dset s.1 kv.1 current_cpu_time, dset s.2 kv.1 v)

/-- Body of the second loop of `get_cpu_mhz`: seed one newly added VM. -/
def addedStep (query : String → Except PyErr Int)
    (added_vm_data : List (String × List Int))
    (s : List (String × Int) × List (String × Int)) (uuid : String) :
    Except PyErr (List (String × Int) × List (String × Int)) := do
  let data ← match dlookup uuid added_vm_data with
    | some d => Except.ok d
    | none => Except.error PyErr.keyError
  let mhz := match data.getLast? with
    | some v => dset s.2 uuid v
    | none => s.2
  let current_cpu_time ← get_cpu_time query uuid
  pure (dset s.1 uuid current_cpu_time, mhz)

/-- Body of the third loop of `get_cpu_mhz`: drop one removed VM. -/
def removedStep (s : List (String × Int) × List (String × Int)) (uuid : String) :
    Except PyErr (List (String × Int) × List (String × Int)) := do
  let p ← removeKey .keyError s.1 uuid
  let m ← removeKey .keyError s.2 uuid
  pure (p, m)

def get_cpu_mhz (query : String → Except PyErr Int) (physical_cpus : Int)
    (previous_cpu_time : List (String × Int)) (previous_time current_time : Int)
    (current_vms : List String) (added_vm_data : List (String × List Int)) :
    Except PyErr (List (String × Int) × List (String × Int)) := do
  let previous_vms := dkeys previous_cpu_time
  let added_vms := get_added_vms previous_vms current_vms
  let removed_vms := get_removed_vms previous_vms current_vms
  let s1 ← previous_cpu_time.foldlM
    (sampleStep query physical_cpus previous_time current_time)
    (previous_cpu_time, ([] : List (String × Int)))
  let s2 ← added_vms.foldlM (addedStep query added_vm_data) s1
  let s3 ← removed_vms.foldlM removedStep s2
  pure s3

/-! ## Claims about the counter converter and the MHOD constraint -/

/-- C1: for every otf, migration_time, non-empty list of L functions, state
vector, matrix P, time_in_states and time_in_state_n, `build_constraint`
returns a triple `(predicate, ≤, otf)` whose predicate, applied to any window
sizes `m` (for which the denominator is defined, i.e. nonzero), evaluates to
`(migration_time + time_in_state_n + ls[-1](sv,P,m)) /
 (migration_time + time_in_states + Σ_l l(sv,P,m))`; in particular with
migration_time = 60, time_in_state_n = 0, time_in_states = 0 and a single L
function returning 0, the predicate evaluates to 1.0, which satisfies the
bound when otf = 1.0 and violates it when otf = 0.5. -/
theorem build_constraint_spec (otf migration_time : ℚ) (ls : List LFun)
    (state_vector : List Int) (p : List (List ℚ)) (time_in_states time_in_state_n : ℚ)
    (m : List ℚ) (lastL : LFun) (hlast : ls.getLast? = some lastL)
    (hden : migration_time + time_in_states +
      (ls.map (fun l => l state_vector p m)).sum ≠ 0) :
    (build_constraint otf migration_time ls state_vector p
        time_in_states time_in_state_n).1 m =
      .ok ((migration_time + time_in_state_n + lastL state_vector p m) /
        (migration_time + time_in_states +
          (ls.map (fun l => l state_vector p m)).sum)) ∧
    (build_constraint otf migration_time ls state_vector p
        time_in_states time_in_state_n).2.1 = (fun a b => decide (a ≤ b)) ∧
    (build_constraint otf migration_time ls state_vector p
        time_in_states time_in_state_n).2.2 = otf ∧
    (build_constraint 1 60 [zeroL] state_vector p 0 0).1 m = .ok 1 ∧
    (build_constraint 1 60 [zeroL] state_vector p 0 0).2.1 1
      (build_constraint 1 60 [zeroL] state_vector p 0 0).2.2 = true ∧
    (build_constraint (1/2) 60 [zeroL] state_vector p 0 0).2.1 1
      (build_constraint (1/2) 60 [zeroL] state_vector p 0 0).2.2 = false := by
  refine ⟨?_, rfl, rfl, ?_, by norm_num [build_constraint], by norm_num [build_constraint]⟩
  · simp only [build_constraint, hlast, hden, if_false]
  · norm_num [build_constraint, zeroL]

theorem build_constraint_spec_witness :
    (build_constraint 1 60 [zeroL] [] [] 0 0).1 [] =
      .ok ((60 + 0 + zeroL [] [] []) /
        (60 + 0 + ([zeroL].map (fun l => l [] [] [])).sum)) :=
  (build_constraint_spec 1 60 [zeroL] [] [] 0 0 [] zeroL rfl
    (by norm_num [zeroL])).1

/-- C2: for cpus > 0, t_prev < t_now and c_prev ≤ c_now, the counter
converter returns the integer truncation of
`(c_now − c_prev) / ((t_now − t_prev) · 1e9 · cpus)` (the source's Python 2
floor division coincides with truncation here since the quotient is
non-negative); in particular
`rate(cpus=2, t_prev=0, t_now=1, c_prev=0, c_now=2_000_000_000) = 1`. -/
theorem calculate_cpu_mhz_spec (cpus tp tn cp cn : Int)
    (hc : 0 < cpus) (ht : tp < tn) (hm : cp ≤ cn) :
    calculate_cpu_mhz cpus tp tn cp cn =
      .ok ((cn - cp).tdiv ((tn - tp) * 1000000000 * cpus)) ∧
    calculate_cpu_mhz 2 0 1 0 2000000000 = .ok 1 := by
  have hd : (0 : Int) < (tn - tp) * 1000000000 * cpus :=
    mul_pos (mul_pos (by omega) (by norm_num)) hc
  refine ⟨?_, by decide⟩
  rw [calculate_cpu_mhz, Int.fdiv_eq_tdiv (by omega) hd.le]
  simp [hd.ne.symm]

theorem calculate_cpu_mhz_spec_witness :
    calculate_cpu_mhz 2 0 1 0 2000000000 = .ok 1 :=
  (calculate_cpu_mhz_spec 2 0 1 0 2000000000 (by decide) (by decide) (by decide)).2

/-- C3: with equal timestamps the counter converter fails (the degenerate
zero-length interval raises `ZeroDivisionError`, the spec's
`DegenerateInterval` condition) instead of producing a value. -/
theorem calculate_cpu_mhz_degenerate (cpus t cp cn : Int) :
    calculate_cpu_mhz cpus t t cp cn = .error .zeroDivisionError := by
  simp [calculate_cpu_mhz]

/-- C4 counterexample: with cpus = 1, t_prev = 0, t_now = 1,
c_prev = 2_000_000_000 and c_now = 0 (a counter regression), the converter
does not fail: it returns the negative rate −2. -/
theorem calculate_cpu_mhz_regression_counterexample :
    calculate_cpu_mhz 1 0 1 2000000000 0 = .ok (-2) := by decide

/-- C4 amended: for cpus > 0 and t_prev < t_now, when c_now < c_prev the
counter converter does not fail: it returns the Python 2 floor quotient
`(c_now − c_prev) // ((t_now − t_prev) · 1e9 · cpus)`, which is negative. -/
theorem calculate_cpu_mhz_regression (cpus tp tn cp cn : Int)
    (hc : 0 < cpus) (ht : tp < tn) (hm : cn < cp) :
    calculate_cpu_mhz cpus tp tn cp cn =
      .ok ((cn - cp).fdiv ((tn - tp) * 1000000000 * cpus)) ∧
    (cn - cp).fdiv ((tn - tp) * 1000000000 * cpus) < 0 := by
  have hd : (0 : Int) < (tn - tp) * 1000000000 * cpus :=
    mul_pos (mul_pos (by omega) (by norm_num)) hc
  refine ⟨?_, Int.fdiv_neg' (by omega) hd⟩
  simp [calculate_cpu_mhz, hd.ne.symm]

theorem calculate_cpu_mhz_regression_witness :
    calculate_cpu_mhz 1 0 1 2000000000 0 =
      .ok ((0 - 2000000000 : Int).fdiv ((1 - 0) * 1000000000 * 1)) ∧
    (0 - 2000000000 : Int).fdiv ((1 - 0) * 1000000000 * 1) < 0 :=
  calculate_cpu_mhz_regression 1 0 1 2000000000 0 (by decide) (by decide) (by decide)

/-- C5 counterexample: with migration_time = 0, time_in_states = 0 and the
single L function returning 0, the denominator is zero and evaluating the
built predicate fails with the propagated `ZeroDivisionError` — not with the
spec's distinct `InvalidModelInput` condition. -/
theorem build_constraint_zero_denominator_counterexample :
    (build_constraint 1 0 [zeroL] [] [] 0 0).1 [] = .error .zeroDivisionError ∧
    (build_constraint 1 0 [zeroL] [] [] 0 0).1 [] ≠ .error .invalidModelInput := by
  have h1 : (build_constraint 1 0 [zeroL] [] [] 0 0).1 [] = .error .zeroDivisionError := by
    norm_num [build_constraint, zeroL]
  refine ⟨h1, ?_⟩
  rw [h1]
  decide

/-- C5 amended: whenever the denominator
`migration_time + time_in_states + Σ_l l(sv,P,m)` is zero, evaluating the
predicate built by `build_constraint` fails with the propagated division-by-
zero error (so no NaN and no finite value is produced, but the error is the
propagated `ZeroDivisionError`, not a distinct `InvalidModelInput`
condition). -/
theorem build_constraint_zero_denominator (otf migration_time : ℚ) (ls : List LFun)
    (state_vector : List Int) (p : List (List ℚ)) (time_in_states time_in_state_n : ℚ)
    (m : List ℚ) (lastL : LFun) (hlast : ls.getLast? = some lastL)
    (hden : migration_time + time_in_states +
      (ls.map (fun l => l state_vector p m)).sum = 0) :
    (build_constraint otf migration_time ls state_vector p
        time_in_states time_in_state_n).1 m = .error .zeroDivisionError := by
  simp only [build_constraint, hlast, hden, if_true]

theorem build_constraint_zero_denominator_witness :
    (build_constraint 1 0 [zeroL] [] [] 0 0).1 [] = .error .zeroDivisionError :=
  build_constraint_zero_denominator 1 0 [zeroL] [] [] 0 0 [] zeroL rfl
    (by norm_num [zeroL])

/-! ## Claims about the bounded history append -/

/-- The two deque steps of `append_data_locally` amount to keeping the last
`data_length` elements of `history ++ [value]`. -/
theorem append_data_locally_vm_eq (history : List Int) (value : Int) (n : Nat) :
    append_data_locally_vm history value n =
      (history ++ [value]).drop (history.length + 1 - n) := by
  unfold append_data_locally_vm dequeAppendMax dequeOfList
  by_cases h : history.length < n
  · rw [Nat.sub_eq_zero_of_le h.le, List.drop_zero, if_pos h,
      Nat.sub_eq_zero_of_le h, List.drop_zero]
  · have hn : n ≤ history.length := Nat.le_of_not_lt h
    have hc : ¬ (history.drop (history.length - n)).length < n := by
      rw [List.length_drop]
      omega
    rw [if_neg hc, List.length_drop]
    have h1 : history.length - (history.length - n) + 1 - n = 1 := by omega
    rw [h1, ← List.drop_append_of_le_length (Nat.sub_le history.length n),
      List.drop_drop]
    congr 1
    omega

/-- C6: for every positive capacity, existing history and appended value, the
history written by `append_data_locally` has length
`min (previous_length + 1) capacity`, its last element is the appended value,
when at capacity its first `capacity − 1` elements are the previous history's
last `capacity − 1` elements, and its length never exceeds the capacity. -/
theorem append_data_locally_fifo (history : List Int) (value : Int) (capacity : Nat)
    (hcap : 0 < capacity) :
    (append_data_locally_vm history value capacity).length =
      min (history.length + 1) capacity ∧
    (append_data_locally_vm history value capacity).getLast? = some value ∧
    ((append_data_locally_vm history value capacity).length = capacity →
      (append_data_locally_vm history value capacity).take (capacity - 1) =
        history.drop (history.length - (capacity - 1))) ∧
    (append_data_locally_vm history value capacity).length ≤ capacity := by
  rw [append_data_locally_vm_eq]
  have hk : history.length + 1 - capacity ≤ history.length := by omega
  rw [List.drop_append_of_le_length hk]
  have hlen : (history.drop (history.length + 1 - capacity) ++ [value]).length =
      min (history.length + 1) capacity := by
    rw [List.length_append, List.length_drop]
    simp only [List.length_singleton]
    omega
  refine ⟨hlen, List.getLast?_concat _, ?_, by omega⟩
  intro hfull
  rw [hlen] at hfull
  have hdl : (history.drop (history.length + 1 - capacity)).length = capacity - 1 := by
    rw [List.length_drop]
    omega
  rw [List.take_left' hdl]
  congr 1
  omega

theorem append_data_locally_fifo_witness :
    (append_data_locally_vm [1, 2, 3] 9 3).length = min ([1, 2, 3].length + 1) 3 ∧
    (append_data_locally_vm [1, 2, 3] 9 3).getLast? = some 9 ∧
    ((append_data_locally_vm [1, 2, 3] 9 3).length = 3 →
      (append_data_locally_vm [1, 2, 3] 9 3).take (3 - 1) =
        [1, 2, 3].drop ([1, 2, 3].length - (3 - 1))) ∧
    (append_data_locally_vm [1, 2, 3] 9 3).length ≤ 3 :=
  append_data_locally_fifo [1, 2, 3] 9 3 (by decide)

/-! ## Association-list lemmas -/

@[simp] theorem dkeys_nil : dkeys ([] : List (String × β)) = [] := rfl

@[simp] theorem dkeys_cons (e : String × β) (l : List (String × β)) :
    dkeys (e :: l) = e.1 :: dkeys l := rfl

theorem dlookup_eq_none (l : List (String × β)) (k : String) :
    dlookup k l = none ↔ k ∉ dkeys l := by
  induction l with
  | nil => simp [dlookup]
  | cons e rest ih =>
    by_cases h : k = e.1
    · simp [dlookup, h]
    · simp [dlookup, h, ih]

theorem exists_dlookup_of_mem {l : List (String × β)} {k : String}
    (h : k ∈ dkeys l) : ∃ v, dlookup k l = some v := by
  cases hv : dlookup k l with
  | none => exact absurd h ((dlookup_eq_none l k).1 hv)
  | some v => exact ⟨v, rfl⟩

@[simp] theorem dlookup_dset_self (l : List (String × β)) (k : String) (v : β) :
    dlookup k (dset l k v) = some v := by
  induction l with
  | nil => simp [dset, dlookup]
  | cons e rest ih =>
    by_cases h : k = e.1 <;> simp [dset, dlookup, h, ih]

theorem dlookup_dset_ne (l : List (String × β)) {k a : String} (v : β)
    (h : a ≠ k) : dlookup a (dset l k v) = dlookup a l := by
  induction l with
  | nil => simp [dset, dlookup, h]
  | cons e rest ih =>
    by_cases hk : k = e.1
    · subst hk
      simp [dset, dlookup, h]
    · by_cases ha : a = e.1 <;> simp [dset, dlookup, hk, ha, ih]

theorem mem_dkeys_dset (l : List (String × β)) (k : String) (v : β) (a : String) :
    a ∈ dkeys (dset l k v) ↔ a ∈ dkeys l ∨ a = k := by
  induction l with
  | nil => simp [dset]
  | cons e rest ih =>
    by_cases hk : k = e.1
    · subst hk
      simp [dset]
      tauto
    · simp [dset, hk, ih]
      tauto

theorem dkeys_dset_nodup (l : List (String × β)) (k : String) (v : β)
    (hnd : (dkeys l).Nodup) : (dkeys (dset l k v)).Nodup := by
  induction l with
  | nil => simp [dset]
  | cons e rest ih =>
    rw [dkeys_cons, List.nodup_cons] at hnd
    by_cases hk : k = e.1
    · subst hk
      simpa [dset] using hnd
    · rw [dset, if_neg hk, dkeys_cons, List.nodup_cons]
      refine ⟨?_, ih hnd.2⟩
      rw [mem_dkeys_dset]
      rintro (hmem | heq)
      · exact hnd.1 hmem
      · exact hk heq.symm

theorem removeKey_error_of_not_mem (err : PyErr) {l : List (String × β)}
    {k : String} (h : k ∉ dkeys l) : removeKey err l k = .error err := by
  induction l with
  | nil => rfl
  | cons e rest ih =>
    simp only [dkeys_cons, List.mem_cons, not_or] at h
    rw [removeKey, if_neg h.1, ih h.2]
    rfl

theorem removeKey_ok_of_mem (err : PyErr) {l : List (String × β)} {k : String}
    (h : k ∈ dkeys l) : ∃ l2, removeKey err l k = .ok l2 := by
  induction l with
  | nil => simp at h
  | cons e rest ih =>
    by_cases hk : k = e.1
    · exact ⟨rest, by rw [removeKey, if_pos hk]⟩
    · have h2 : k ∈ dkeys rest := by simpa [hk] using h
      obtain ⟨l2, hl2⟩ := ih h2
      exact ⟨e :: l2, by rw [removeKey, if_neg hk, hl2]; rfl⟩

theorem removeKey_sublist (err : PyErr) {l l2 : List (String × β)} {k : String}
    (h : removeKey err l k = .ok l2) : l2.Sublist l := by
  induction l generalizing l2 with
  | nil => simp [removeKey] at h
  | cons e rest ih =>
    by_cases hk : k = e.1
    · rw [removeKey, if_pos hk] at h
      cases h
      exact (List.sublist_cons_self e rest)
    · rw [removeKey, if_neg hk] at h
      cases hr : removeKey err rest k with
      | error e2 => rw [hr] at h; exact absurd h (by simp [Except.map])
      | ok r =>
        rw [hr] at h
        simp only [Except.map, Except.ok.injEq] at h
        cases h
        exact (ih hr).cons₂ e

theorem dlookup_removeKey_ne (err : PyErr) {l l2 : List (String × β)}
    {k a : String} (h : removeKey err l k = .ok l2) (hne : a ≠ k) :
    dlookup a l2 = dlookup a l := by
  induction l generalizing l2 with
  | nil => simp [removeKey] at h
  | cons e rest ih =>
    by_cases hk : k = e.1
    · rw [removeKey, if_pos hk] at h
      cases h
      rw [dlookup, if_neg (by rw [← hk]; exact hne)]
    · rw [removeKey, if_neg hk] at h
      cases hr : removeKey err rest k with
      | error e2 => rw [hr] at h; exact absurd h (by simp [Except.map])
      | ok r =>
        rw [hr] at h
        simp only [Except.map, Except.ok.injEq] at h
        cases h
        by_cases ha : a = e.1 <;> simp [dlookup, ha, ih hr]

theorem dlookup_removeKey_self (err : PyErr) {l l2 : List (String × β)}
    {k : String} (hnd : (dkeys l).Nodup) (h : removeKey err l k = .ok l2) :
    dlookup k l2 = none := by
  induction l generalizing l2 with
  | nil => simp [removeKey] at h
  | cons e rest ih =>
    rw [dkeys_cons, List.nodup_cons] at hnd
    by_cases hk : k = e.1
    · rw [removeKey, if_pos hk] at h
      cases h
      rw [dlookup_eq_none, hk]
      exact hnd.1
    · rw [removeKey, if_neg hk] at h
      cases hr : removeKey err rest k with
      | error e2 => rw [hr] at h; exact absurd h (by simp [Except.map])
      | ok r =>
        rw [hr] at h
        simp only [Except.map, Except.ok.injEq] at h
        cases h
        rw [dlookup, if_neg hk]
        exact ih hnd.2 hr

theorem mem_dkeys_removeKey (err : PyErr) {l l2 : List (String × β)} {k : String}
    (hnd : (dkeys l).Nodup) (h : removeKey err l k = .ok l2) (a : String) :
    a ∈ dkeys l2 ↔ a ∈ dkeys l ∧ a ≠ k := by
  by_cases ha : a = k
  · subst ha
    have := dlookup_removeKey_self err hnd h
    rw [dlookup_eq_none] at this
    simp [this]
  · have hl := dlookup_removeKey_ne err h ha
    constructor
    · intro hm
      obtain ⟨v, hv⟩ := exists_dlookup_of_mem hm
      refine ⟨?_, ha⟩
      by_contra hnm
      rw [← dlookup_eq_none] at hnm
      rw [hl, hnm] at hv
      exact Option.noConfusion hv
    · rintro ⟨hm, -⟩
      obtain ⟨v, hv⟩ := exists_dlookup_of_mem hm
      by_contra hnm
      rw [← dlookup_eq_none, hl, hv] at hnm
      exact Option.noConfusion hnm

/-! ## Claim about `cleanup_local_data` -/

/-- A concrete VM UUID used in witnesses and counterexamples. -/
def vm1 : String := "vm1"

/-- C7 counterexample: deleting the record of `vm1` twice in succession is
not equivalent to deleting it once — the first `cleanup_local_data` succeeds
and empties the store, the second raises `OSError` (`os.remove` on the now
missing file). -/
theorem cleanup_local_data_twice_counterexample :
    cleanup_local_data [(vm1, [1])] [vm1] = .ok [] ∧
    cleanup_local_data [] [vm1] = .error .osError := by
  constructor <;> rfl

/-- C7 amended: deleting an existing record once removes it (a read of the
history finds nothing), but the second delete of the now-absent record fails
with `OSError` — `cleanup_local_data` is not idempotent. -/
theorem cleanup_local_data_once (store : List (String × List Int)) (vm : String)
    (hnd : (dkeys store).Nodup) (h : vm ∈ dkeys store) :
    ∃ s1, cleanup_local_data store [vm] = .ok s1 ∧ dlookup vm s1 = none ∧
      cleanup_local_data s1 [vm] = .error .osError := by
  obtain ⟨s1, hs1⟩ := removeKey_ok_of_mem .osError h
  have hnone : dlookup vm s1 = none := dlookup_removeKey_self .osError hnd hs1
  refine ⟨s1, ?_, hnone, ?_⟩
  · rw [cleanup_local_data, List.foldlM_cons, hs1]
    rfl
  · rw [cleanup_local_data, List.foldlM_cons,
      removeKey_error_of_not_mem .osError ((dlookup_eq_none s1 vm).1 hnone)]
    rfl

theorem cleanup_local_data_once_witness :
    ∃ s1, cleanup_local_data [(vm1, [1])] [vm1] = .ok s1 ∧ dlookup vm1 s1 = none ∧
      cleanup_local_data s1 [vm1] = .error .osError :=
  cleanup_local_data_once [(vm1, [1])] vm1 (by simp) (by simp)

/-! ## Inversion lemmas for the `get_cpu_mhz` loops -/

theorem except_bind_ok {ε α β : Type} {f : Except ε α} {g : α → Except ε β} {b : β} :
    f >>= g = Except.ok b ↔ ∃ a, f = Except.ok a ∧ g a = Except.ok b := by
  cases f <;> simp [Bind.bind, Except.bind]

theorem except_pure_eq {ε α : Type} (a : α) : (pure a : Except ε α) = Except.ok a := rfl

/-- Whether a fallible computation succeeded. -/
def isOk {α : Type} : Except PyErr α → Bool
  | .ok _ => true
  | .error _ => false

/-- Successful completion of one `sampleStep` means: the counter query and the
rate conversion both succeeded, and the two dict entries were written. -/
theorem sampleStep_ok {query : String → Except PyErr Int} {cpus tp tn : Int}
    {s s2 : List (String × Int) × List (String × Int)} {kv : String × Int} :
    sampleStep query cpus tp tn s kv = .ok s2 ↔
      ∃ ct v, query kv.1 = .ok ct ∧ calculate_cpu_mhz cpus tp tn kv.2 ct = .ok v ∧
        s2 = (dset s.1 kv.1 ct, dset s.2 kv.1 v) := by
  unfold sampleStep get_cpu_time
  simp only [except_bind_ok, except_pure_eq, Except.ok.injEq]
  constructor
  · rintro ⟨ct, hct, v, hv, h⟩
    exact ⟨ct, v, hct, hv, h.symm⟩
  · rintro ⟨ct, v, hct, hv, h⟩
    exact ⟨ct, hct, v, hv, h.symm⟩

/-- Successful completion of one `addedStep` means: the fetched data covered
the VM, the counter query succeeded, the baseline entry was written, and a
sample entry was written exactly when the fetched history is non-empty. -/
theorem addedStep_ok {query : String → Except PyErr Int}
    {added_vm_data : List (String × List Int)}
    {s s2 : List (String × Int) × List (String × Int)} {uuid : String} :
    addedStep query added_vm_data s uuid = .ok s2 ↔
      ∃ d ct, dlookup uuid added_vm_data = some d ∧ query uuid = .ok ct ∧
        s2 = (dset s.1 uuid ct,
          match d.getLast? with
          | some v => dset s.2 uuid v
          | none => s.2) := by
  have hstep : ∀ d, dlookup uuid added_vm_data = some d →
      addedStep query added_vm_data s uuid =
        (query uuid >>= fun ct => Except.ok (dset s.1 uuid ct,
          match d.getLast? with
          | some v => dset s.2 uuid v
          | none => s.2)) := by
    intro d hd
    unfold addedStep get_cpu_time
    rw [hd]
    rfl
  cases hd : dlookup uuid added_vm_data with
  | none =>
    have herr : addedStep query added_vm_data s uuid = .error .keyError := by
      unfold addedStep get_cpu_time
      rw [hd]
      rfl
    rw [herr]
    constructor
    · intro h
      exact Except.noConfusion h
    · rintro ⟨d, ct, hsome, -, -⟩
      exact Option.noConfusion hsome
  | some d =>
    rw [hstep d hd, except_bind_ok]
    constructor
    · rintro ⟨ct, hct, h⟩
      injection h with h
      exact ⟨d, ct, rfl, hct, h.symm⟩
    · rintro ⟨d2, ct, hd2, hct, h⟩
      injection hd2 with hd2
      subst hd2
      exact ⟨ct, hct, by rw [h]⟩

/-- Successful completion of one `removedStep` means both `del` statements
found their key. -/
theorem removedStep_ok {s s2 : List (String × Int) × List (String × Int)}
    {uuid : String} :
    removedStep s uuid = .ok s2 ↔
      ∃ p m, removeKey .keyError s.1 uuid = .ok p ∧
        removeKey .keyError s.2 uuid = .ok m ∧ s2 = (p, m) := by
  unfold removedStep
  simp only [except_bind_ok, except_pure_eq, Except.ok.injEq]
  constructor
  · rintro ⟨p, hp, m, hm, h⟩
    exact ⟨p, m, hp, hm, h.symm⟩
  · rintro ⟨p, m, hp, hm, h⟩
    exact ⟨p, hp, m, hm, h.symm⟩

/-! ## Facts about the first (sampling) loop of `get_cpu_mhz` -/

/-- VMs not among the iterated items keep their entries. -/
theorem sample_foldlM_lookup_of_not_mem {query : String → Except PyErr Int}
    {cpus tp tn : Int} :
    ∀ (items : List (String × Int)) (s r : List (String × Int) × List (String × Int)),
      items.foldlM (sampleStep query cpus tp tn) s = .ok r →
      ∀ a, a ∉ dkeys items →
        dlookup a r.1 = dlookup a s.1 ∧ dlookup a r.2 = dlookup a s.2 := by
  intro items
  induction items with
  | nil =>
    intro s r h a _
    rw [List.foldlM_nil, except_pure_eq] at h
    cases h
    exact ⟨rfl, rfl⟩
  | cons kv rest ih =>
    intro s r h a ha
    rw [List.foldlM_cons, except_bind_ok] at h
    obtain ⟨s1, hs1, hrest⟩ := h
    rw [sampleStep_ok] at hs1
    obtain ⟨ct, v, hct, hv, rfl⟩ := hs1
    simp only [dkeys_cons, List.mem_cons, not_or] at ha
    obtain ⟨h1, h2⟩ := ih _ _ hrest a ha.2
    rw [h1, h2]
    exact ⟨dlookup_dset_ne _ _ ha.1, dlookup_dset_ne _ _ ha.1⟩

/-- If the sampling loop completed, the counter query of every iterated VM
succeeded. -/
theorem sample_foldlM_query_ok {query : String → Except PyErr Int}
    {cpus tp tn : Int} :
    ∀ (items : List (String × Int)) (s r : List (String × Int) × List (String × Int)),
      items.foldlM (sampleStep query cpus tp tn) s = .ok r →
      ∀ a, a ∈ dkeys items → ∃ ct, query a = .ok ct := by
  intro items
  induction items with
  | nil =>
    intro s r _ a ha
    simp at ha
  | cons kv rest ih =>
    intro s r h a ha
    rw [List.foldlM_cons, except_bind_ok] at h
    obtain ⟨s1, hs1, hrest⟩ := h
    rw [sampleStep_ok] at hs1
    obtain ⟨ct, v, hct, hv, rfl⟩ := hs1
    rw [dkeys_cons, List.mem_cons] at ha
    cases ha with
    | inl ha => exact ⟨ct, ha ▸ hct⟩
    | inr ha => exact ih _ _ hrest a ha

/-- Key sets after the sampling loop: both dicts gained exactly the iterated
keys. -/
theorem sample_foldlM_keys {query : String → Except PyErr Int}
    {cpus tp tn : Int} :
    ∀ (items : List (String × Int)) (s r : List (String × Int) × List (String × Int)),
      items.foldlM (sampleStep query cpus tp tn) s = .ok r →
      ∀ a, (a ∈ dkeys r.1 ↔ a ∈ dkeys s.1 ∨ a ∈ dkeys items) ∧
        (a ∈ dkeys r.2 ↔ a ∈ dkeys s.2 ∨ a ∈ dkeys items) := by
  intro items
  induction items with
  | nil =>
    intro s r h a
    rw [List.foldlM_nil, except_pure_eq] at h
    cases h
    simp
  | cons kv rest ih =>
    intro s r h a
    rw [List.foldlM_cons, except_bind_ok] at h
    obtain ⟨s1, hs1, hrest⟩ := h
    rw [sampleStep_ok] at hs1
    obtain ⟨ct, v, hct, hv, rfl⟩ := hs1
    obtain ⟨ih1, ih2⟩ := ih _ _ hrest a
    rw [ih1, ih2]
    simp only [mem_dkeys_dset, dkeys_cons, List.mem_cons]
    constructor <;> tauto

/-- The sampling loop preserves key nodup-ness of both dicts. -/
theorem sample_foldlM_nodup {query : String → Except PyErr Int}
    {cpus tp tn : Int} :
    ∀ (items : List (String × Int)) (s r : List (String × Int) × List (String × Int)),
      items.foldlM (sampleStep query cpus tp tn) s = .ok r →
      (dkeys s.1).Nodup → (dkeys s.2).Nodup →
      (dkeys r.1).Nodup ∧ (dkeys r.2).Nodup := by
  intro items
  induction items with
  | nil =>
    intro s r h h1 h2
    rw [List.foldlM_nil, except_pure_eq] at h
    cases h
    exact ⟨h1, h2⟩
  | cons kv rest ih =>
    intro s r h h1 h2
    rw [List.foldlM_cons, except_bind_ok] at h
    obtain ⟨s1, hs1, hrest⟩ := h
    rw [sampleStep_ok] at hs1
    obtain ⟨ct, v, hct, hv, rfl⟩ := hs1
    exact ih _ _ hrest (dkeys_dset_nodup _ _ _ h1) (dkeys_dset_nodup _ _ _ h2)

/-! ## Facts about the second (added-VMs) loop of `get_cpu_mhz` -/

/-- VMs not among the added uuids keep their entries. -/
theorem added_foldlM_lookup_of_not_mem {query : String → Except PyErr Int}
    {data : List (String × List Int)} :
    ∀ (uuids : List String) (s r : List (String × Int) × List (String × Int)),
      uuids.foldlM (addedStep query data) s = .ok r →
      ∀ a, a ∉ uuids →
        dlookup a r.1 = dlookup a s.1 ∧ dlookup a r.2 = dlookup a s.2 := by
  intro uuids
  induction uuids with
  | nil =>
    intro s r h a _
    rw [List.foldlM_nil, except_pure_eq] at h
    cases h
    exact ⟨rfl, rfl⟩
  | cons u rest ih =>
    intro s r h a ha
    rw [List.foldlM_cons, except_bind_ok] at h
    obtain ⟨s1, hs1, hrest⟩ := h
    rw [addedStep_ok] at hs1
    obtain ⟨d, ct, hd, hct, rfl⟩ := hs1
    rw [List.mem_cons, not_or] at ha
    obtain ⟨h1, h2⟩ := ih _ _ hrest a ha.2
    rw [h1, h2]
    refine ⟨dlookup_dset_ne _ _ ha.1, ?_⟩
    cases hl : d.getLast? with
    | none => simp [hl]
    | some v => simp [hl, dlookup_dset_ne _ _ ha.1]

/-- What the added-VMs loop writes for each processed uuid: the baseline
entry holds the freshly queried counter, and the sample entry holds the last
element of the fetched history when it is non-empty, else whatever was there
before the loop. -/
theorem added_foldlM_lookup_processed {query : String → Except PyErr Int}
    {data : List (String × List Int)} :
    ∀ (uuids : List String) (s r : List (String × Int) × List (String × Int)),
      uuids.Nodup →
      uuids.foldlM (addedStep query data) s = .ok r →
      ∀ a, a ∈ uuids →
        ∃ d ct, dlookup a data = some d ∧ query a = .ok ct ∧
          dlookup a r.1 = some ct ∧
          dlookup a r.2 = (match d.getLast? with
            | some v => some v
            | none => dlookup a s.2) := by
  intro uuids
  induction uuids with
  | nil =>
    intro s r _ _ a ha
    simp at ha
  | cons u rest ih =>
    intro s r hnd h a ha
    rw [List.nodup_cons] at hnd
    rw [List.foldlM_cons, except_bind_ok] at h
    obtain ⟨s1, hs1, hrest⟩ := h
    rw [addedStep_ok] at hs1
    obtain ⟨d, ct, hd, hct, rfl⟩ := hs1
    rw [List.mem_cons] at ha
    cases ha with
    | inl ha =>
      subst ha
      obtain ⟨h1, h2⟩ := added_foldlM_lookup_of_not_mem rest _ r hrest a hnd.1
      refine ⟨d, ct, hd, hct, ?_, ?_⟩
      · rw [h1]
        exact dlookup_dset_self _ _ _
      · rw [h2]
        cases hl : d.getLast? with
        | none => simp [hl]
        | some v => simp [hl]
    | inr ha =>
      have hne : a ≠ u := fun hau => hnd.1 (hau ▸ ha)
      obtain ⟨d2, ct2, hd2, hct2, h1, h2⟩ := ih _ _ hnd.2 hrest a ha
      refine ⟨d2, ct2, hd2, hct2, h1, ?_⟩
      rw [h2]
      cases hl : d2.getLast? with
      | some v => rfl
      | none =>
        cases hl2 : d.getLast? with
        | none => rfl
        | some v => exact dlookup_dset_ne _ _ hne

/-- Key sets after the added-VMs loop: the baseline dict gained exactly the
added uuids; the sample dict gained at most the added uuids. -/
theorem added_foldlM_keys {query : String → Except PyErr Int}
    {data : List (String × List Int)} :
    ∀ (uuids : List String) (s r : List (String × Int) × List (String × Int)),
      uuids.foldlM (addedStep query data) s = .ok r →
      ∀ a, (a ∈ dkeys r.1 ↔ a ∈ dkeys s.1 ∨ a ∈ uuids) ∧
        (a ∈ dkeys r.2 → a ∈ dkeys s.2 ∨ a ∈ uuids) := by
  intro uuids
  induction uuids with
  | nil =>
    intro s r h a
    rw [List.foldlM_nil, except_pure_eq] at h
    cases h
    simp
  | cons u rest ih =>
    intro s r h a
    rw [List.foldlM_cons, except_bind_ok] at h
    obtain ⟨s1, hs1, hrest⟩ := h
    rw [addedStep_ok] at hs1
    obtain ⟨d, ct, hd, hct, rfl⟩ := hs1
    obtain ⟨ih1, ih2⟩ := ih _ _ hrest a
    constructor
    · rw [ih1]
      simp only [mem_dkeys_dset, List.mem_cons]
      tauto
    · intro hm
      cases ih2 hm with
      | inr hr => exact Or.inr (List.mem_cons_of_mem u hr)
      | inl hs =>
        cases hl : d.getLast? with
        | none =>
          rw [hl] at hs
          exact Or.inl hs
        | some v =>
          rw [hl] at hs
          rw [mem_dkeys_dset] at hs
          cases hs with
          | inl hs => exact Or.inl hs
          | inr hs => exact Or.inr (hs ▸ List.mem_cons_self u rest)

/-- The added-VMs loop preserves key nodup-ness of both dicts. -/
theorem added_foldlM_nodup {query : String → Except PyErr Int}
    {data : List (String × List Int)} :
    ∀ (uuids : List String) (s r : List (String × Int) × List (String × Int)),
      uuids.foldlM (addedStep query data) s = .ok r →
      (dkeys s.1).Nodup → (dkeys s.2).Nodup →
      (dkeys r.1).Nodup ∧ (dkeys r.2).Nodup := by
  intro uuids
  induction uuids with
  | nil =>
    intro s r h h1 h2
    rw [List.foldlM_nil, except_pure_eq] at h
    cases h
    exact ⟨h1, h2⟩
  | cons u rest ih =>
    intro s r h h1 h2
    rw [List.foldlM_cons, except_bind_ok] at h
    obtain ⟨s1, hs1, hrest⟩ := h
    rw [addedStep_ok] at hs1
    obtain ⟨d, ct, hd, hct, rfl⟩ := hs1
    refine ih _ _ hrest (dkeys_dset_nodup _ _ _ h1) ?_
    cases hl : d.getLast? with
    | none => exact h2
    | some v => exact dkeys_dset_nodup _ _ _ h2

/-! ## Facts about the third (removed-VMs) loop of `get_cpu_mhz` -/

/-- VMs not among the removed uuids keep their entries. -/
theorem removed_foldlM_lookup_of_not_mem :
    ∀ (uuids : List String) (s r : List (String × Int) × List (String × Int)),
      uuids.foldlM removedStep s = .ok r →
      ∀ a, a ∉ uuids →
        dlookup a r.1 = dlookup a s.1 ∧ dlookup a r.2 = dlookup a s.2 := by
  intro uuids
  induction uuids with
  | nil =>
    intro s r h a _
    rw [List.foldlM_nil, except_pure_eq] at h
    cases h
    exact ⟨rfl, rfl⟩
  | cons u rest ih =>
    intro s r h a ha
    rw [List.foldlM_cons, except_bind_ok] at h
    obtain ⟨s1, hs1, hrest⟩ := h
    rw [removedStep_ok] at hs1
    obtain ⟨p, m, hp, hm, rfl⟩ := hs1
    rw [List.mem_cons, not_or] at ha
    obtain ⟨h1, h2⟩ := ih _ _ hrest a ha.2
    rw [h1, h2]
    exact ⟨dlookup_removeKey_ne _ hp ha.1, dlookup_removeKey_ne _ hm ha.1⟩

/-- Key sets after the removed-VMs loop: both dicts lost exactly the removed
uuids (given nodup key sets, as Python dicts have). -/
theorem removed_foldlM_keys :
    ∀ (uuids : List String) (s r : List (String × Int) × List (String × Int)),
      (dkeys s.1).Nodup → (dkeys s.2).Nodup →
      uuids.foldlM removedStep s = .ok r →
      ∀ a, (a ∈ dkeys r.1 ↔ a ∈ dkeys s.1 ∧ a ∉ uuids) ∧
        (a ∈ dkeys r.2 ↔ a ∈ dkeys s.2 ∧ a ∉ uuids) := by
  intro uuids
  induction uuids with
  | nil =>
    intro s r _ _ h a
    rw [List.foldlM_nil, except_pure_eq] at h
    cases h
    simp
  | cons u rest ih =>
    intro s r hn1 hn2 h a
    rw [List.foldlM_cons, except_bind_ok] at h
    obtain ⟨s1, hs1, hrest⟩ := h
    rw [removedStep_ok] at hs1
    obtain ⟨p, m, hp, hm, rfl⟩ := hs1
    have hpn : (dkeys p).Nodup :=
      hn1.sublist ((removeKey_sublist _ hp).map Prod.fst)
    have hmn : (dkeys m).Nodup :=
      hn2.sublist ((removeKey_sublist _ hm).map Prod.fst)
    obtain ⟨ih1, ih2⟩ := ih _ _ hpn hmn hrest a
    rw [ih1, ih2]
    have e1 := mem_dkeys_removeKey _ hn1 hp a
    have e2 := mem_dkeys_removeKey _ hn2 hm a
    rw [show dkeys (p, m).1 = dkeys p from rfl] at *
    rw [e1, e2]
    simp only [List.mem_cons, not_or]
    constructor <;> tauto

/-! ## Claims about `get_cpu_mhz` -/

/-- `get_cpu_mhz` succeeds exactly when its three loops succeed in
sequence. -/
theorem get_cpu_mhz_ok_iff {query : String → Except PyErr Int} {cpus : Int}
    {prev : List (String × Int)} {tp tc : Int} {current : List String}
    {data : List (String × List Int)}
    {r : List (String × Int) × List (String × Int)} :
    get_cpu_mhz query cpus prev tp tc current data = .ok r ↔
      ∃ s1 s2, prev.foldlM (sampleStep query cpus tp tc) (prev, []) = .ok s1 ∧
        (get_added_vms (dkeys prev) current).foldlM (addedStep query data) s1 = .ok s2 ∧
        (get_removed_vms (dkeys prev) current).foldlM removedStep s2 = .ok r := by
  unfold get_cpu_mhz
  simp only [except_bind_ok, except_pure_eq, Except.ok.injEq]
  constructor
  · rintro ⟨s1, h1, s2, h2, s3, h3, rfl⟩
    exact ⟨s1, s2, h1, h2, h3⟩
  · rintro ⟨s1, s2, h1, h2, h3⟩
    exact ⟨s1, h1, s2, h2, r, h3, rfl⟩

/-- A second concrete VM UUID. -/
def vm2 : String := "vm2"

/-- A hypervisor on which the counter query fails for `vm1` only. -/
def failQuery : String → Except PyErr Int :=
  fun u => if u = vm1 then .error .libvirtError else .ok 5

/-- A hypervisor on which every counter query succeeds with value 7. -/
def okQuery : String → Except PyErr Int := fun _ => .ok 7

/-- C8 counterexample: two tracked VMs, the counter query fails for `vm1`
only (it succeeds for `vm2`), yet the whole `get_cpu_mhz` pass aborts with
the propagated libvirt error — no sample and no updated baseline is produced
for `vm2`. -/
theorem get_cpu_mhz_single_failure_counterexample :
    failQuery vm2 = .ok 5 ∧
    get_cpu_mhz failQuery 1 [(vm1, 0), (vm2, 0)] 0 1 [vm1, vm2] [] =
      .error .libvirtError := by
  constructor <;> rfl

/-- C8 amended: a failure of the per-VM counter query for any single tracked
VM aborts the whole `get_cpu_mhz` pass (there is no `try` in the source): the
pass returns an error and produces samples and updated baselines for no VM at
all. -/
theorem get_cpu_mhz_failure_aborts (query : String → Except PyErr Int)
    (cpus : Int) (prev : List (String × Int)) (tp tc : Int)
    (current : List String) (data : List (String × List Int))
    (uuid : String) (e : PyErr)
    (hmem : uuid ∈ dkeys prev) (hq : query uuid = .error e) :
    isOk (get_cpu_mhz query cpus prev tp tc current data) = false := by
  cases hres : get_cpu_mhz query cpus prev tp tc current data with
  | error e2 => rfl
  | ok r =>
    rw [get_cpu_mhz_ok_iff] at hres
    obtain ⟨s1, s2, h1, h2, h3⟩ := hres
    obtain ⟨ct, hct⟩ := sample_foldlM_query_ok prev _ _ h1 uuid hmem
    rw [hq] at hct
    exact Except.noConfusion hct

theorem get_cpu_mhz_failure_aborts_witness :
    isOk (get_cpu_mhz failQuery 1 [(vm1, 0), (vm2, 0)] 0 1 [vm1, vm2] []) = false :=
  get_cpu_mhz_failure_aborts failQuery 1 [(vm1, 0), (vm2, 0)] 0 1 [vm1, vm2] []
    vm1 .libvirtError (by simp) rfl

/-- Membership in the reconciliation outputs. -/
theorem mem_get_added_vms (previous_vms current_vms : List String) (a : String) :
    a ∈ get_added_vms previous_vms current_vms ↔
      a ∈ current_vms ∧ a ∉ previous_vms := by
  rw [get_added_vms, substract_lists]
  simp [List.mem_dedup, List.mem_filter]

theorem mem_get_removed_vms (previous_vms current_vms : List String) (a : String) :
    a ∈ get_removed_vms previous_vms current_vms ↔
      a ∈ previous_vms ∧ a ∉ current_vms := by
  rw [get_removed_vms, substract_lists]
  simp [List.mem_dedup, List.mem_filter]

/-- C9: a VM in the live set with no previous counter on record gets no rate
computed from this interval: its emitted sample is the last element of the
history fetched from the shared store (no sample at all when that history is
empty — `getLast? = none`), and its baseline for the next iteration is the
freshly queried raw counter. -/
theorem get_cpu_mhz_added_vm (query : String → Except PyErr Int) (cpus : Int)
    (prev : List (String × Int)) (tp tc : Int) (current : List String)
    (data : List (String × List Int)) (uuid : String)
    (p3 m3 : List (String × Int)) (d : List Int) (ct : Int)
    (hok : get_cpu_mhz query cpus prev tp tc current data = .ok (p3, m3))
    (hcur : uuid ∈ current) (hnew : uuid ∉ dkeys prev)
    (hdata : dlookup uuid data = some d) (hq : query uuid = .ok ct) :
    dlookup uuid p3 = some ct ∧ dlookup uuid m3 = d.getLast? := by
  rw [get_cpu_mhz_ok_iff] at hok
  obtain ⟨s1, s2, h1, h2, h3⟩ := hok
  have hadded : uuid ∈ get_added_vms (dkeys prev) current :=
    (mem_get_added_vms _ _ _).2 ⟨hcur, hnew⟩
  have hnorem : uuid ∉ get_removed_vms (dkeys prev) current := by
    rw [mem_get_removed_vms]
    rintro ⟨hmem2, -⟩
    exact hnew hmem2
  have hndadded : (get_added_vms (dkeys prev) current).Nodup := by
    rw [get_added_vms, substract_lists]
    exact List.nodup_dedup _
  obtain ⟨d2, ct2, hd2, hct2, hl1, hl2⟩ :=
    added_foldlM_lookup_processed _ _ _ hndadded h2 uuid hadded
  rw [hdata] at hd2
  injection hd2 with hd2
  subst hd2
  rw [hq] at hct2
  injection hct2 with hct2
  subst hct2
  obtain ⟨-, hm1⟩ := sample_foldlM_lookup_of_not_mem prev _ _ h1 uuid hnew
  obtain ⟨h31, h32⟩ := removed_foldlM_lookup_of_not_mem _ _ _ h3 uuid hnorem
  constructor
  · rw [show dlookup uuid p3 = dlookup uuid (p3, m3).1 from rfl, h31, hl1]
  · rw [show dlookup uuid m3 = dlookup uuid (p3, m3).2 from rfl, h32, hl2, hm1]
    cases d.getLast? <;> rfl

theorem get_cpu_mhz_added_vm_witness :
    dlookup vm1 [(vm1, (7 : Int))] = some 7 ∧
    dlookup vm1 [(vm1, (3 : Int))] = ([3] : List Int).getLast? :=
  get_cpu_mhz_added_vm okQuery 1 [] 0 1 [vm1] [(vm1, [3])] vm1
    [(vm1, 7)] [(vm1, 3)] [3] 7 rfl (by simp) (by simp) rfl rfl

/-- C10: whenever `get_cpu_mhz` returns, the returned counter map's key set
is exactly the set of current VM ids (stale previous VMs dropped, newly live
VMs added), and every key of the returned samples map is a current VM id. -/
theorem get_cpu_mhz_keys (query : String → Except PyErr Int) (cpus : Int)
    (prev : List (String × Int)) (tp tc : Int) (current : List String)
    (data : List (String × List Int)) (p3 m3 : List (String × Int))
    (hnd : (dkeys prev).Nodup)
    (hok : get_cpu_mhz query cpus prev tp tc current data = .ok (p3, m3)) :
    (∀ a, a ∈ dkeys p3 ↔ a ∈ current) ∧ (∀ a, a ∈ dkeys m3 → a ∈ current) := by
  rw [get_cpu_mhz_ok_iff] at hok
  obtain ⟨s1, s2, h1, h2, h3⟩ := hok
  obtain ⟨hn11, hn12⟩ := sample_foldlM_nodup prev _ _ h1 hnd List.nodup_nil
  obtain ⟨hn21, hn22⟩ := added_foldlM_nodup _ _ _ h2 hn11 hn12
  have hk1 := sample_foldlM_keys prev _ _ h1
  have hk2 := added_foldlM_keys _ _ _ h2
  have hk3 := removed_foldlM_keys _ _ _ hn21 hn22 h3
  constructor
  · intro a
    have k31 : a ∈ dkeys p3 ↔
        a ∈ dkeys s2.1 ∧ a ∉ get_removed_vms (dkeys prev) current := (hk3 a).1
    rw [k31, (hk2 a).1, (hk1 a).1, mem_get_added_vms, mem_get_removed_vms]
    by_cases hP : a ∈ dkeys prev <;> by_cases hC : a ∈ current <;>
      simp [hP, hC]
  · intro a hm
    have k32 : a ∈ dkeys m3 ↔
        a ∈ dkeys s2.2 ∧ a ∉ get_removed_vms (dkeys prev) current := (hk3 a).2
    rw [k32] at hm
    obtain ⟨hm2, hnrem⟩ := hm
    rw [mem_get_removed_vms] at hnrem
    cases (hk2 a).2 hm2 with
    | inr hadd => exact ((mem_get_added_vms _ _ _).1 hadd).1
    | inl hs1 =>
      have hP : a ∈ dkeys prev := by
        rcases (hk1 a).2.1 hs1 with h0 | h0
        · simp at h0
        · exact h0
      by_contra hc
      exact hnrem ⟨hP, hc⟩

theorem get_cpu_mhz_keys_witness :
    vm1 ∈ dkeys [(vm1, (7 : Int))] ↔ vm1 ∈ [vm1] :=
  (get_cpu_mhz_keys okQuery 1 [(vm1, 0)] 0 1 [vm1] [] [(vm1, 7)] [(vm1, 0)]
    (by simp) rfl).1 vm1

end Terracotta
